import Mathlib

/-!
Shallow embedding of the payment-to-identity binding engine of the
marathon telegram bot (files `app/main.py`, `app/handlers/admin.py`,
`app/handlers/join_requests.py`, `app/webhooks.py`, `app/db/models.py`).

Database rows become structures, the SQLAlchemy session becomes an explicit
`DB` value threaded through the handlers, ORDER BY ... .first() queries
become folds over the stored rows, and the external transport calls
(ban/unban/approve) become boolean outcome parameters.  Chat replies are
modelled as inductive reply values.
-/

namespace Marathon

/-- Ledger row `Payment` (`app/db/models.py`): autoincrement `id`, unique
`order_id`, optional contact fields, free-form `status`, consumption flag
`used`.  Timestamps are modelled as naturals. -/
structure Payment where
  id : Nat
  order_id : String
  email : Option String
  phone : Option String
  status : String
  product_name : Option String
  created_at : Nat
  used : Bool
deriving Repr, DecidableEq

/-- Identity row `User`: unique `telegram_id` plus the nullable
`payment_id` foreign key that realises `bound_payment`. -/
structure User where
  id : Nat
  telegram_id : String
  username : Option String
  full_name : Option String
  payment_id : Option Nat
deriving Repr, DecidableEq

/-- Audit row `AccessLog`. -/
structure AccessLog where
  telegram_id : String
  email : Option String
  order_id : String
  group_name : String
  group_id : String
  action : String
  timestamp : Nat
  comment : String
deriving Repr, DecidableEq

/-- `CurrentGroup` row: `chat_id` stays null until a join-request event
reveals it. -/
structure Group where
  id : Nat
  chat_id : Option String
  group_name : String
  invite_link : String
deriving Repr, DecidableEq

/-- The persistent state behind one SQLAlchemy session. -/
structure DB where
  payments : List Payment
  users : List User
  logs : List AccessLog
  groups : List Group
deriving Repr, DecidableEq

/-- Python truthiness for an optional string: `None` and `""` are falsy. -/
def isBlankOpt : Option String → Bool
  | none => true
  | some s => s = ""

/-- The whitespace set of Python `str.strip`. -/
def isPySpace (c : Char) : Bool :=
  c = ' ' || c = '\t' || c = '\n' || c = '\r' || c = '\x0b' || c = '\x0c'

/-- Python `str.strip` (kernel-reducible, over the character list). -/
def pyStrip (s : String) : String :=
  String.mk (((s.data.dropWhile isPySpace).reverse.dropWhile isPySpace).reverse)

/-- Python `str.lower` on the ASCII range (statuses are ASCII). -/
def pyLower (s : String) : String :=
  String.mk (s.data.map Char.toLower)

/-- Substring membership test `c in s` for a single character. -/
def hasChar (s : String) (c : Char) : Bool :=
  s.data.contains c

/-- SQL `LIKE '%t'` / Python `str.endswith` (kernel-reducible). -/
def strEndsWith (s t : String) : Bool :=
  t.data.isSuffixOf s.data

/-- `normalize_phone` (`app/main.py`, `app/handlers/admin.py`): keep the
digits only. -/
def normalize_phone (s : String) : String :=
  String.mk (s.data.filter Char.isDigit)

/-- `phone_variants`: the digit string and its last-ten-digit tail, or
`(None, None)` when the input holds no digit. -/
def phone_variants (s : String) : Option String × Option String :=
  let digits := normalize_phone s
  if digits = "" then (none, none)
  else
    let tail10 :=
      if digits.length ≥ 10 then String.mk (digits.data.drop (digits.length - 10))
      else digits
    (some digits, some tail10)

/-- The OR-filter block shared by every non-email criterion: exact
`order_id`, exact phone, or `phone.endswith` on the last ten digits
(the suffix filter is added only when the tail has at least ten digits). -/
def phoneOrOrderMatch (text : String) (p : Payment) : Bool :=
  let pv := phone_variants text
  (p.order_id == text)
  || (match pv.1 with
      | some d => p.phone == some d
      | none => false)
  || (match pv.2 with
      | some t =>
        t.length ≥ 10 &&
          (match p.phone with
           | some ph => strEndsWith ph t
           | none => false)
      | none => false)

/-- Self-service match criterion (`handle_email_or_order`): a string holding
an `@` is matched strictly against `email`, anything else goes through the
order-id/phone OR-filter. -/
def selfMatch (text : String) (p : Payment) : Bool :=
  if hasChar text '@' then p.email == some text
  else phoneOrOrderMatch text p

/-- Administrative match criterion (`send_payment_info`,
`rebind_payment_to_user`, `admin_remove_user`, `admin_unban_user` inline the
same filter list): `email == q` OR `order_id == q` OR the phone criteria,
with no branching on the `@` sign. -/
def adminMatch (q : String) (p : Payment) : Bool :=
  (p.email == some q) || phoneOrOrderMatch q p

/-- `ORDER BY created_at DESC, id DESC` of the self-service resolver:
`claimBefore p q` says `p` sorts strictly before `q`. -/
def claimBefore (p q : Payment) : Bool :=
  (q.created_at < p.created_at) || (p.created_at == q.created_at && q.id < p.id)

/-- `ORDER BY id DESC` of every administrative resolver. -/
def adminBefore (p q : Payment) : Bool := q.id < p.id

/-- `ORDER BY id DESC` on `current_group`. -/
def groupBefore (g h : Group) : Bool := h.id < g.id

/-- `.first()` after an ORDER BY: the row that sorts before all others,
computed as a fold over the stored rows. -/
def selectFirst {α : Type} (b : α → α → Bool) : List α → Option α
  | [] => none
  | x :: xs =>
    match selectFirst b xs with
    | none => some x
    | some r => if b r x then some r else some x

/-- Self-service primary query: matching, `status == "paid"`, unused. -/
def selfResolve (db : DB) (text : String) : Option Payment :=
  selectFirst claimBefore
    (db.payments.filter fun p => selfMatch text p && p.status == "paid" && p.used == false)

/-- Self-service probe behind the distinct "already used" message:
matching and paid, the `used` flag ignored. -/
def usedResolve (db : DB) (text : String) : Option Payment :=
  selectFirst claimBefore
    (db.payments.filter fun p => selfMatch text p && p.status == "paid")

/-- Administrative resolver: any status, any `used` flag, newest synthetic
id wins. -/
def adminResolve (db : DB) (q : String) : Option Payment :=
  selectFirst adminBefore (db.payments.filter (adminMatch q))

/-- `db.query(CurrentGroup).order_by(CurrentGroup.id.desc()).first()`. -/
def currentGroup (db : DB) : Option Group :=
  selectFirst groupBefore db.groups

/-- Autoincrement value for a freshly inserted identity row. -/
def nextUserId (db : DB) : Nat :=
  db.users.foldr (fun u a => max u.id a) 0 + 1

/-- Autoincrement value for a freshly inserted ledger row. -/
def nextPaymentId (db : DB) : Nat :=
  db.payments.foldr (fun p a => max p.id a) 0 + 1

/-- The sender of a chat message (`message.from_user`). -/
structure FromUser where
  id : Nat
  username : Option String
  full_name : Option String
deriving Repr, DecidableEq

/-- Replies of the self-service claim path. -/
inductive ClaimReply where
  | notFound
  | alreadyUsed
  | otherAccount
  | noGroupConfigured
  | invite (link : String) (groupName : String)
deriving Repr, DecidableEq

/-- `payment.used = True` on the row with id `pid` (shared by claim, rebind
and join confirmation). -/
def setUsed (payments : List Payment) (pid : Nat) : List Payment :=
  payments.map fun p => if p.id = pid then { p with used := true } else p

/-- The identity-registry update of the claim path: create the identity row
when absent, otherwise repoint its `payment_id`. -/
def claimUsers (db : DB) (fu : FromUser) (tgid : String) (payment : Payment) :
    List User :=
  match db.users.find? (fun u => u.telegram_id == tgid) with
  | none =>
    db.users ++ [⟨nextUserId db, tgid, fu.username, fu.full_name, some payment.id⟩]
  | some u =>
    db.users.map fun w =>
      if w.id = u.id then { w with payment_id := some payment.id } else w

/-- The binding step of `handle_email_or_order` once a payment is resolved
and the other-account guard has passed: create or repoint the identity row,
set `used`, then look up the active group (both branches commit). -/
def claimBind (db : DB) (fu : FromUser) (tgid : String) (payment : Payment) :
    DB × ClaimReply :=
  match currentGroup db with
  | none =>
    ({ db with users := claimUsers db fu tgid payment,
               payments := setUsed db.payments payment.id },
     ClaimReply.noGroupConfigured)
  | some g =>
    ({ db with users := claimUsers db fu tgid payment,
               payments := setUsed db.payments payment.id },
     ClaimReply.invite g.invite_link g.group_name)

/-- `handle_email_or_order` (`app/main.py`), from the resolver queries on:
the self-service claim-and-consume path.  The surrounding dispatch (button
texts, empty input, admin-menu exclusion) is transport plumbing and is not
modelled. -/
def handle_email_or_order (db : DB) (fu : FromUser) (text : String) :
    DB × ClaimReply :=
  match selfResolve db text with
  | none =>
    if (usedResolve db text).isSome then (db, ClaimReply.alreadyUsed)
    else (db, ClaimReply.notFound)
  | some payment =>
    match db.users.find? (fun u => u.payment_id == some payment.id) with
    | some eu =>
      if eu.telegram_id ≠ toString fu.id then (db, ClaimReply.otherAccount)
      else claimBind db fu (toString fu.id) payment
    | none => claimBind db fu (toString fu.id) payment

/-- Replies of the administrative rebind path. -/
inductive RebindReply where
  | notFound
  | rebound (order_id : String) (telegram_id : String)
deriving Repr, DecidableEq

/-- The `new_user` step of the rebind: the stored rows together with the id
of the (possibly freshly inserted) target identity. -/
def rebindTarget (db : DB) (telegram_id : String) : List User × Nat :=
  match db.users.find? (fun u => u.telegram_id == telegram_id) with
  | some u => (db.users, u.id)
  | none =>
    (db.users ++ [⟨nextUserId db, telegram_id, none, none, none⟩], nextUserId db)

/-- The `old_user` eviction step of the rebind: clear the binding of the
first owner of the payment when it differs from the target identity. -/
def evictOld (users : List User) (pid : Nat) (newId : Nat) : List User :=
  match users.find? (fun u => u.payment_id == some pid) with
  | some ou =>
    if ou.id ≠ newId then
      users.map fun (w : User) =>
        if w.id = ou.id then { w with payment_id := none } else w
    else users
  | none => users

/-- The `new_user.payment_id = payment.id` step of the rebind. -/
def bindNew (users : List User) (newId : Nat) (pid : Nat) : List User :=
  users.map fun (w : User) =>
    if w.id = newId then { w with payment_id := some pid } else w

/-- `rebind_payment_to_user` (`app/handlers/admin.py`): resolve the payment
administratively, create the target identity when absent, evict a distinct
previous owner, bind, and mark the payment used. -/
def rebind_payment_to_user (db : DB) (payment_key : String) (telegram_id : String) :
    DB × RebindReply :=
  match adminResolve db payment_key with
  | none => (db, RebindReply.notFound)
  | some payment =>
    ({ db with
       users :=
         bindNew
           (evictOld (rebindTarget db telegram_id).1 payment.id
             (rebindTarget db telegram_id).2)
           (rebindTarget db telegram_id).2 payment.id
       payments := setUsed db.payments payment.id },
     RebindReply.rebound payment.order_id telegram_id)

/-- Outcome of the join-request handler; the final constructor distinguishes
the transport result of `event.approve()`, which in the source is awaited
after `db.commit()`. -/
inductive JoinOutcome where
  | ignored
  | approved
  | approveFailed
deriving Repr, DecidableEq

/-- The wrong-group / lazy-adoption gate of `approve_join_request`: whether
the event may proceed, and the group rows after the lazy `chat_id`
adoption. -/
def joinGate (db : DB) (chatId : String) : Bool × List Group :=
  match currentGroup db with
  | none => (true, db.groups)
  | some g =>
    if isBlankOpt g.chat_id then
      (true,
       db.groups.map fun h =>
         if h.id = g.id then { h with chat_id := some chatId } else h)
    else ((g.chat_id == some chatId), db.groups)

/-- `approve_join_request` (`app/handlers/join_requests.py`).  `approveOk`
models whether the transport call `event.approve()` succeeds; the database
commit precedes that call in the source, so the committed state does not
depend on it. -/
def approve_join_request (db : DB) (fromId : Nat) (chatId : String)
    (chatTitle : String) (now : Nat) (approveOk : Bool) : DB × JoinOutcome :=
  match db.users.find? (fun u => u.telegram_id == toString fromId) with
  | none => (db, JoinOutcome.ignored)
  | some user =>
    match user.payment_id with
    | none => (db, JoinOutcome.ignored)
    | some pid =>
      match db.payments.find? (fun p => p.id == pid) with
      | none => (db, JoinOutcome.ignored)
      | some payment =>
        if payment.status ≠ "paid" then (db, JoinOutcome.ignored)
        else if (joinGate db chatId).1 = false then (db, JoinOutcome.ignored)
        else
          ({ db with
             groups := (joinGate db chatId).2
             logs := db.logs ++
               [⟨toString fromId, payment.email, payment.order_id, chatTitle, chatId,
                 "granted", now, "Auto-approved join request"⟩]
             payments := setUsed db.payments payment.id },
           if approveOk then JoinOutcome.approved else JoinOutcome.approveFailed)

/-- Replies of the administrative remove/unban paths. -/
inductive AdminActReply where
  | notFound
  | noBoundUser
  | selfTarget
  | noGroupChat
  | transportFailed
  | acted
deriving Repr, DecidableEq

/-- Python `str.isdigit` restricted to ASCII: nonempty and all digits. -/
def isDigits (s : String) : Bool :=
  s ≠ "" && s.data.all Char.isDigit

/-- `payment.email or "unknown"` as written on the admin audit rows. -/
def orUnknown : Option String → String
  | none => "unknown"
  | some e => if e = "" then "unknown" else e

/-- `payment.order_id or "unknown"`. -/
def orUnknownStr (s : String) : String :=
  if s = "" then "unknown" else s

/-- `admin_remove_user` (`app/handlers/admin.py`): resolve, validate the
bound identity, refuse self-removal, require a known group chat id, then
call the transport (`ban_chat_member`, outcome `banOk`); only on transport
success is the `revoked` audit row committed. -/
def admin_remove_user (db : DB) (adminId : Nat) (text : String) (now : Nat)
    (banOk : Bool) : DB × AdminActReply :=
  match adminResolve db text with
  | none => (db, AdminActReply.notFound)
  | some payment =>
    match db.users.find? (fun u => u.payment_id == some payment.id) with
    | none => (db, AdminActReply.noBoundUser)
    | some user =>
      if ¬ isDigits user.telegram_id then (db, AdminActReply.noBoundUser)
      else if toString adminId == user.telegram_id then (db, AdminActReply.selfTarget)
      else
        match currentGroup db with
        | none => (db, AdminActReply.noGroupChat)
        | some g =>
          if isBlankOpt g.chat_id then (db, AdminActReply.noGroupChat)
          else
            match banOk with
            | false => (db, AdminActReply.transportFailed)
            | true =>
              let log : AccessLog :=
                ⟨user.telegram_id, some (orUnknown payment.email),
                 orUnknownStr payment.order_id, g.group_name, g.chat_id.getD "",
                 "revoked", now, "Removed by admin"⟩
              ({ db with logs := db.logs ++ [log] }, AdminActReply.acted)

/-- `admin_unban_user` (`app/handlers/admin.py`): same shape as removal but
with no self-target guard, calling `unban_chat_member` (outcome `unbanOk`)
and committing an `unbanned` audit row only on transport success. -/
def admin_unban_user (db : DB) (text : String) (now : Nat) (unbanOk : Bool) :
    DB × AdminActReply :=
  match adminResolve db text with
  | none => (db, AdminActReply.notFound)
  | some payment =>
    match db.users.find? (fun u => u.payment_id == some payment.id) with
    | none => (db, AdminActReply.noBoundUser)
    | some user =>
      if ¬ isDigits user.telegram_id then (db, AdminActReply.noBoundUser)
      else
        match currentGroup db with
        | none => (db, AdminActReply.noGroupChat)
        | some g =>
          if isBlankOpt g.chat_id then (db, AdminActReply.noGroupChat)
          else
            match unbanOk with
            | false => (db, AdminActReply.transportFailed)
            | true =>
              let log : AccessLog :=
                ⟨user.telegram_id, some (orUnknown payment.email),
                 orUnknownStr payment.order_id, g.group_name, g.chat_id.getD "",
                 "unbanned", now, "Unbanned by admin"⟩
              ({ db with logs := db.logs ++ [log] }, AdminActReply.acted)

/-- The fixed status vocabulary of `_normalize_status` (`app/webhooks.py`),
applied to the stripped lower-cased value. -/
def statusMap (n : String) : String :=
  if n = "success" then "paid"
  else if n = "succeeded" then "paid"
  else if n = "paid" then "paid"
  else if n = "completed" then "paid"
  else if n = "cancelled" then "cancelled"
  else if n = "canceled" then "cancelled"
  else if n = "failed" then "failed"
  else if n = "pending" then "pending"
  else n

/-- `_normalize_status`: a missing or empty value becomes `"paid"`, anything
else is stripped, lower-cased and pushed through the vocabulary. -/
def normalize_status : Option String → String
  | none => "paid"
  | some v => if v = "" then "paid" else statusMap (pyLower (pyStrip v))

/-- `_normalize_phone`: digits of the raw value, or `None` when there are
none. -/
def normalize_phone_opt : Option String → Option String
  | none => none
  | some v =>
    if v = "" then none
    else
      let d := normalize_phone v
      if d = "" then none else some d

/-- HTTP-level outcome of webhook ingestion. -/
inductive WebhookReply where
  | badRequest
  | ok
deriving Repr, DecidableEq

/-- The update branch of the upsert: overlay only the non-empty incoming
contact fields, always overwrite `status` and `created_at`. -/
def overlayed (p : Payment) (email phone product_name : Option String)
    (status : String) (created_at : Nat) : Payment :=
  { p with
    email := if isBlankOpt email then p.email else email
    phone := if isBlankOpt phone then p.phone else phone
    status := status
    product_name := if isBlankOpt product_name then p.product_name else product_name
    created_at := created_at }

/-- `handle_prodamus` (`app/webhooks.py`) after payload extraction: the
`_get_first` results are passed in directly and `created_at` stands for the
`_parse_timestamp` result.  Create on a fresh `order_id`, otherwise overlay
onto the existing row. -/
def handle_prodamus (db : DB) (order_id email phone_raw status_raw product_name : Option String)
    (created_at : Nat) : DB × WebhookReply :=
  if isBlankOpt order_id || (isBlankOpt email && isBlankOpt (normalize_phone_opt phone_raw)) then
    (db, WebhookReply.badRequest)
  else
    match db.payments.find? (fun p => p.order_id == order_id.getD "") with
    | none =>
      ({ db with
         payments :=
           db.payments ++
             [⟨nextPaymentId db, order_id.getD "", email, normalize_phone_opt phone_raw,
               normalize_status status_raw, product_name, created_at, false⟩] },
       WebhookReply.ok)
    | some p0 =>
      ({ db with
         payments :=
           db.payments.map fun p =>
             if p.id = p0.id then
               overlayed p email (normalize_phone_opt phone_raw) product_name
                 (normalize_status status_raw) created_at
             else p },
       WebhookReply.ok)

/-- Number of identity rows bound to payment id `pid`. -/
def bindersCount (users : List User) (pid : Nat) : Nat :=
  users.countP fun u => u.payment_id == some pid

/-- At-most-one-binding invariant: every ledger row is referenced by at most
one identity row. -/
def AtMostOneBinding (db : DB) : Prop :=
  ∀ p ∈ db.payments, bindersCount db.users p.id ≤ 1

/-- Storage well-formedness guaranteed by the schema: synthetic user ids and
telegram ids are unique. -/
def WFdb (db : DB) : Prop :=
  (db.users.map User.id).Nodup ∧ (db.users.map User.telegram_id).Nodup

instance (db : DB) : Decidable (AtMostOneBinding db) := by
  unfold AtMostOneBinding; infer_instance

instance (db : DB) : Decidable (WFdb db) := by
  unfold WFdb; infer_instance

/-! Concrete databases used to instantiate the theorems below. -/

/-- The empty database. -/
def db0 : DB := ⟨[], [], [], []⟩

/-- Ledger state after ingesting the end-to-end scenario webhook
`order_id=A1, email=a@b.com, status=success`. -/
def dbW : DB :=
  (handle_prodamus db0 (some "A1") (some "a@b.com") none (some "success") none 100).1

/-- `dbW` with an active group configured (invite link `L`, name `G`). -/
def dbG : DB := { dbW with groups := [⟨1, none, "G", "L"⟩] }

/-- The chat identity with numeric id 42. -/
def fu42 : FromUser := ⟨42, none, none⟩

/-- One paid payment whose bound identity is telegram id `7`; no group row. -/
def dbJ : DB :=
  ⟨[⟨1, "A1", some "a@b.com", none, "paid", none, 100, false⟩],
   [⟨1, "7", none, none, some 1⟩], [], []⟩

/-- `dbJ` with a group row whose chat id is already known. -/
def dbR : DB := { dbJ with groups := [⟨1, some "-100", "G", "L"⟩] }

/-- A payment whose order id itself holds an `@` sign. -/
def pC5 : Payment := ⟨1, "x@y.z", some "other@e.com", none, "paid", none, 5, false⟩

/-- Database around `pC5`. -/
def dbC5 : DB := ⟨[pC5], [], [], []⟩

/-- Same email, lower id, later creation time. -/
def pA6 : Payment := ⟨1, "A", some "e@x", none, "paid", none, 10, false⟩

/-- Same email, higher id, earlier creation time. -/
def pB6 : Payment := ⟨2, "B", some "e@x", none, "paid", none, 5, false⟩

/-- Database holding the two payments of the tie-break scenario. -/
def dbC6 : DB := ⟨[pA6, pB6], [], [], []⟩

/-- A second identity (id 9) with no binding, next to the bound identity of
`dbJ`: the rebind-eviction scenario. -/
def dbE : DB := { dbJ with users := dbJ.users ++ [⟨2, "9", none, none, none⟩] }

/-- A single already-consumed payment: the re-ingestion scenario. -/
def dbU : DB :=
  ⟨[⟨1, "A1", some "a@b.com", none, "paid", none, 100, true⟩], [], [], []⟩

/-! Generic lemmas about the query fold and `countP`. -/

theorem selectFirst_mem {α : Type} (b : α → α → Bool) :
    ∀ (l : List α) (x : α), selectFirst b l = some x → x ∈ l := by
  intro l
  induction l with
  | nil => intro x h; simp [selectFirst] at h
  | cons y ys ih =>
    intro x h
    simp only [selectFirst] at h
    cases hys : selectFirst b ys with
    | none => simp only [hys] at h; cases h; exact List.mem_cons_self y ys
    | some r =>
      simp only [hys] at h
      by_cases hb : b r y = true
      · rw [if_pos hb] at h
        cases h
        exact List.mem_cons_of_mem y (ih x hys)
      · rw [if_neg hb] at h
        cases h
        exact List.mem_cons_self y ys

theorem selectFirst_cons_isSome {α : Type} (b : α → α → Bool) (x : α) (xs : List α) :
    (selectFirst b (x :: xs)).isSome = true := by
  simp only [selectFirst]
  cases selectFirst b xs with
  | none => rfl
  | some r => by_cases hb : b r x = true <;> simp [hb]

theorem selectFirst_maximal {α : Type} (b : α → α → Bool)
    (hasym : ∀ p q, b p q = true → b q p = false)
    (hnegtrans : ∀ p q r, b p q = false → b q r = false → b p r = false) :
    ∀ (l : List α) (x : α), selectFirst b l = some x → ∀ q ∈ l, b q x = false := by
  have hirr : ∀ p, b p p = false := by
    intro p
    cases hb : b p p with
    | false => rfl
    | true =>
      have h2 := hasym p p hb
      rw [hb] at h2
      exact h2
  intro l
  induction l with
  | nil => intro x h; simp [selectFirst] at h
  | cons y ys ih =>
    intro x h q hq
    simp only [selectFirst] at h
    cases hys : selectFirst b ys with
    | none =>
      simp only [hys] at h
      have hx : y = x := Option.some.inj h
      subst hx
      rcases List.mem_cons.mp hq with rfl | hq'
      · exact hirr q
      · cases ys with
        | nil => simp at hq'
        | cons z zs =>
          have hs := selectFirst_cons_isSome b z zs
          rw [hys] at hs
          cases hs
    | some r =>
      simp only [hys] at h
      by_cases hb : b r y = true
      · rw [if_pos hb] at h
        have hx : r = x := Option.some.inj h
        subst hx
        rcases List.mem_cons.mp hq with rfl | hq'
        · exact hasym r q hb
        · exact ih r hys q hq'
      · rw [if_neg hb] at h
        have hx : y = x := Option.some.inj h
        subst hx
        rcases List.mem_cons.mp hq with rfl | hq'
        · exact hirr q
        · have h1 : b q r = false := ih r hys q hq'
          have h2 : b r y = false := by simpa using hb
          exact hnegtrans q r y h1 h2

theorem claimBefore_asym (p q : Payment) (h : claimBefore p q = true) :
    claimBefore q p = false := by
  simp only [claimBefore, Bool.or_eq_true, Bool.and_eq_true, decide_eq_true_eq,
    beq_iff_eq] at h
  simp only [claimBefore, Bool.or_eq_false_iff, Bool.and_eq_false_iff,
    decide_eq_false_iff_not, not_lt, beq_eq_false_iff_ne, ne_eq]
  omega

theorem claimBefore_negtrans (p q r : Payment) (h1 : claimBefore p q = false)
    (h2 : claimBefore q r = false) : claimBefore p r = false := by
  simp only [claimBefore, Bool.or_eq_false_iff, Bool.and_eq_false_iff,
    decide_eq_false_iff_not, not_lt, beq_eq_false_iff_ne, ne_eq] at h1 h2 ⊢
  omega

theorem adminBefore_asym (p q : Payment) (h : adminBefore p q = true) :
    adminBefore q p = false := by
  simp only [adminBefore, decide_eq_true_eq] at h
  simp only [adminBefore, decide_eq_false_iff_not, not_lt]
  omega

theorem adminBefore_negtrans (p q r : Payment) (h1 : adminBefore p q = false)
    (h2 : adminBefore q r = false) : adminBefore p r = false := by
  simp only [adminBefore, decide_eq_false_iff_not, not_lt] at h1 h2 ⊢
  omega

theorem countP_split_le {α : Type} (p q r : α → Bool) :
    ∀ l : List α, (∀ a ∈ l, p a = true → q a = true ∨ r a = true) →
      l.countP p ≤ l.countP q + l.countP r := by
  intro l
  induction l with
  | nil => intro _; simp
  | cons a t ih =>
    intro h
    have ht := ih fun x hx => h x (List.mem_cons_of_mem a hx)
    rw [List.countP_cons, List.countP_cons, List.countP_cons]
    by_cases hp : p a = true
    · rcases h a (List.mem_cons_self a t) hp with hq | hr
      · simp only [hp, hq, if_true]
        omega
      · simp only [hp, hr, if_true]
        omega
    · have hp' : p a = false := by simpa using hp
      simp only [hp', Bool.false_eq_true, if_false]
      omega

theorem countP_le_of_imp {α : Type} (p q : α → Bool) :
    ∀ l : List α, (∀ a ∈ l, p a = true → q a = true) → l.countP p ≤ l.countP q := by
  intro l
  induction l with
  | nil => intro _; simp
  | cons a t ih =>
    intro h
    have ht := ih fun x hx => h x (List.mem_cons_of_mem a hx)
    rw [List.countP_cons, List.countP_cons]
    by_cases hp : p a = true
    · simp only [hp, h a (List.mem_cons_self a t) hp, if_true]
      omega
    · have hp' : p a = false := by simpa using hp
      simp only [hp', Bool.false_eq_true, if_false]
      omega

theorem countP_unique {α : Type} (p : α → Bool) :
    ∀ l : List α, l.countP p ≤ 1 → ∀ a ∈ l, ∀ c ∈ l, p a = true → p c = true → a = c := by
  intro l
  induction l with
  | nil => intro _ a ha; simp at ha
  | cons x t ih =>
    intro h a ha c hc hpa hpc
    rw [List.countP_cons] at h
    by_cases hx : p x = true
    · have ht0 : t.countP p = 0 := by
        rw [hx] at h
        simp only [if_true] at h
        omega
      have hnone : ∀ z ∈ t, ¬ p z = true := List.countP_eq_zero.mp ht0
      rcases List.mem_cons.mp ha with rfl | ha'
      · rcases List.mem_cons.mp hc with rfl | hc'
        · rfl
        · exact absurd hpc (hnone c hc')
      · exact absurd hpa (hnone a ha')
    · have hx' : p x = false := by simpa using hx
      have ht : t.countP p ≤ 1 := by
        rw [hx'] at h
        simp only [Bool.false_eq_true, if_false] at h
        omega
      rcases List.mem_cons.mp ha with rfl | ha'
      · rw [hpa] at hx'; cases hx'
      · rcases List.mem_cons.mp hc with rfl | hc'
        · rw [hpc] at hx'; cases hx'
        · exact ih ht a ha' c hc' hpa hpc

theorem countP_key_le_one {α κ : Type} [BEq κ] [LawfulBEq κ] (f : α → κ) (k : κ) :
    ∀ l : List α, (l.map f).Nodup → l.countP (fun a => f a == k) ≤ 1 := by
  intro l
  induction l with
  | nil => intro _; simp
  | cons a t ih =>
    intro h
    rw [List.map_cons, List.nodup_cons] at h
    rw [List.countP_cons]
    by_cases hk : (f a == k) = true
    · have hfa : f a = k := eq_of_beq hk
      have ht0 : t.countP (fun x => f x == k) = 0 := by
        apply List.countP_eq_zero.mpr
        intro z hz hbz
        have hz2 : f z = k := eq_of_beq hbz
        apply h.1
        rw [hfa, ← hz2]
        exact List.mem_map_of_mem f hz
      rw [ht0, hk]
      simp
    · have hk' : (f a == k) = false := by simpa using hk
      rw [hk']
      simp only [Bool.false_eq_true, if_false]
      have := ih h.2
      omega

theorem mem_le_foldr_max (l : List User) (u : User) (hu : u ∈ l) :
    u.id ≤ l.foldr (fun w a => max w.id a) 0 := by
  induction l with
  | nil => simp at hu
  | cons v t ih =>
    rcases List.mem_cons.mp hu with rfl | hu'
    · exact le_max_left _ _
    · exact le_trans (ih hu') (le_max_right _ _)

theorem userId_lt_nextUserId (db : DB) (u : User) (hu : u ∈ db.users) :
    u.id < nextUserId db := by
  unfold nextUserId
  have := mem_le_foldr_max db.users u hu
  omega

/-! Frame lemmas about transport failure and the commit/approve order. -/

theorem admin_remove_user_fail (db : DB) (aid : Nat) (text : String) (now : Nat) :
    (admin_remove_user db aid text now false).1 = db := by
  unfold admin_remove_user
  repeat' split
  all_goals first | rfl | contradiction

theorem admin_unban_user_fail (db : DB) (text : String) (now : Nat) :
    (admin_unban_user db text now false).1 = db := by
  unfold admin_unban_user
  repeat' split
  all_goals first | rfl | contradiction

theorem approve_join_commit_indep (db : DB) (fid : Nat) (cid title : String) (now : Nat) :
    (approve_join_request db fid cid title now false).1 =
      (approve_join_request db fid cid title now true).1 := by
  unfold approve_join_request
  repeat' split
  all_goals rfl

/-- Claim C4: revoke (remove member) and restore (unban member) are
all-or-nothing in the transport call: when the external call fails, the
whole database — ledger, identity registry, audit log, group record — is
left exactly as it was. -/
theorem claim_C4_revoke_restore_all_or_nothing :
    ∀ (db : DB) (adminId : Nat) (text : String) (now : Nat),
      (admin_remove_user db adminId text now false).1 = db ∧
      (admin_unban_user db text now false).1 = db :=
  fun db aid text now =>
    ⟨admin_remove_user_fail db aid text now, admin_unban_user_fail db text now⟩

/-- Claim C2 counterexample: on the join-request confirmation path, the
`granted` audit row and the `used = true` ledger change are committed even
though the approve transport call fails, contradicting the claim that a
failed approve commits neither. -/
theorem claim_C2_counterexample :
    (approve_join_request dbJ 7 "-100" "T" 9 false).2 = JoinOutcome.approveFailed ∧
    (approve_join_request dbJ 7 "-100" "T" 9 false).1.logs =
      [⟨"7", some "a@b.com", "A1", "T", "-100", "granted", 9,
        "Auto-approved join request"⟩] ∧
    (approve_join_request dbJ 7 "-100" "T" 9 false).1.payments =
      [⟨1, "A1", some "a@b.com", none, "paid", none, 100, true⟩] := by
  decide

/-- Claim C2 (amended): for revoke and unban the audit row is written only
after the transport call succeeds — on failure the audit log (indeed the
whole state) is unchanged; join-request confirmation instead commits the
`granted` audit row and the used flag before the approve call, so the
committed state is identical whether the approve call succeeds or fails. -/
theorem claim_C2_audit_after_transport :
    (∀ (db : DB) (aid : Nat) (text : String) (now : Nat),
        (admin_remove_user db aid text now false).1.logs = db.logs) ∧
    (∀ (db : DB) (text : String) (now : Nat),
        (admin_unban_user db text now false).1.logs = db.logs) ∧
    (∀ (db : DB) (fid : Nat) (cid title : String) (now : Nat),
        (approve_join_request db fid cid title now false).1 =
          (approve_join_request db fid cid title now true).1) :=
  ⟨fun db aid text now => by rw [admin_remove_user_fail db aid text now],
   fun db text now => by rw [admin_unban_user_fail db text now],
   fun db fid cid title now => approve_join_commit_indep db fid cid title now⟩

/-- Claim C8 counterexample: the unrecognized status `"REFUNDED"` is stored
as `"refunded"`, not verbatim. -/
theorem claim_C8_counterexample :
    normalize_status (some "REFUNDED") = "refunded" ∧
    normalize_status (some "REFUNDED") ≠ "REFUNDED" := by
  decide

/-- Claim C8 (amended): the fixed vocabulary maps exactly as claimed and a
missing/empty status defaults to `"paid"`; every status outside the
vocabulary is preserved only up to stripping and lower-casing (so verbatim
exactly when already stripped and lower-case). -/
theorem claim_C8_status_normalization :
    (normalize_status (some "success") = "paid" ∧
     normalize_status (some "succeeded") = "paid" ∧
     normalize_status (some "paid") = "paid" ∧
     normalize_status (some "completed") = "paid" ∧
     normalize_status (some "cancelled") = "cancelled" ∧
     normalize_status (some "canceled") = "cancelled" ∧
     normalize_status (some "failed") = "failed" ∧
     normalize_status (some "pending") = "pending" ∧
     normalize_status none = "paid") ∧
    (∀ s : String, s ≠ "" →
      (∀ k ∈ ["success", "succeeded", "paid", "completed", "cancelled", "canceled",
              "failed", "pending"], pyLower (pyStrip s) ≠ k) →
      normalize_status (some s) = pyLower (pyStrip s)) := by
  refine ⟨by decide, ?_⟩
  intro s hs hk
  have h1 := hk "success" (by simp)
  have h2 := hk "succeeded" (by simp)
  have h3 := hk "paid" (by simp)
  have h4 := hk "completed" (by simp)
  have h5 := hk "cancelled" (by simp)
  have h6 := hk "canceled" (by simp)
  have h7 := hk "failed" (by simp)
  have h8 := hk "pending" (by simp)
  simp only [normalize_status, statusMap, if_neg hs, if_neg h1, if_neg h2, if_neg h3,
    if_neg h4, if_neg h5, if_neg h6, if_neg h7, if_neg h8]

/-- Witness for the amended C8 at the concrete unrecognized status
`"refunded"`. -/
theorem claim_C8_witness :
    normalize_status (some "refunded") = pyLower (pyStrip "refunded") :=
  claim_C8_status_normalization.2 "refunded" (by decide) (by decide)

/-- Claim C5 counterexample: in the administrative mode a lookup string
containing an `@` sign is matched by `order_id` equality — the resolved
payment's email differs from the query. -/
theorem claim_C5_counterexample :
    hasChar "x@y.z" '@' = true ∧
    adminResolve dbC5 "x@y.z" = some pC5 ∧
    pC5.email ≠ some "x@y.z" := by
  decide

/-- Claim C5 (amended): strict email matching holds in the self-service
mode only (both the primary unused-paid query and the already-used probe):
a lookup string containing an `@` resolves only to a payment whose email
equals it exactly.  The administrative resolver instead always applies the
email OR order-id OR phone criteria, whether or not the string holds `@`. -/
theorem claim_C5_strict_email :
    (∀ (db : DB) (text : String) (p : Payment), hasChar text '@' = true →
        selfResolve db text = some p → p.email = some text) ∧
    (∀ (db : DB) (text : String) (p : Payment), hasChar text '@' = true →
        usedResolve db text = some p → p.email = some text) ∧
    (∀ (db : DB) (k : String) (p : Payment),
        adminResolve db k = some p → adminMatch k p = true) := by
  refine ⟨?_, ?_, ?_⟩
  · intro db text p hat hres
    have hmem := selectFirst_mem _ _ _ hres
    have hf := (List.mem_filter.mp hmem).2
    simp only [Bool.and_eq_true] at hf
    have hsm := hf.1.1
    rw [selfMatch, if_pos hat] at hsm
    exact eq_of_beq hsm
  · intro db text p hat hres
    have hmem := selectFirst_mem _ _ _ hres
    have hf := (List.mem_filter.mp hmem).2
    simp only [Bool.and_eq_true] at hf
    have hsm := hf.1
    rw [selfMatch, if_pos hat] at hsm
    exact eq_of_beq hsm
  · intro db k p hres
    exact (List.mem_filter.mp (selectFirst_mem _ _ _ hres)).2

/-- Witness for the amended C5: the self-service resolver on `dbG` and the
email query returns the record with exactly that email. -/
theorem claim_C5_witness :
    (⟨1, "A1", some "a@b.com", none, "paid", none, 100, false⟩ : Payment).email
      = some "a@b.com" :=
  claim_C5_strict_email.1 dbG "a@b.com"
    ⟨1, "A1", some "a@b.com", none, "paid", none, 100, false⟩ (by decide) (by decide)

/-- Claim C6 counterexample: two payments share the email `e@x`; the one
with the later creation time has the lower id, and the administrative
resolver returns the other one (highest id, earlier creation time),
contradicting the claim that both modes return the later `created_at`. -/
theorem claim_C6_counterexample :
    adminMatch "e@x" pA6 = true ∧ adminMatch "e@x" pB6 = true ∧
    pB6.created_at < pA6.created_at ∧
    adminResolve dbC6 "e@x" = some pB6 := by
  decide

/-- Claim C6 (amended): the self-service resolver returns a most recent
match by `created_at`, ties broken by highest id; the administrative
resolver orders by highest synthetic id only, ignoring `created_at`. -/
theorem claim_C6_resolver_recency :
    (∀ (db : DB) (text : String) (p q : Payment), selfResolve db text = some p →
        q ∈ db.payments → selfMatch text q = true → q.status = "paid" → q.used = false →
        q.created_at < p.created_at ∨ (q.created_at = p.created_at ∧ q.id ≤ p.id)) ∧
    (∀ (db : DB) (k : String) (p q : Payment), adminResolve db k = some p →
        q ∈ db.payments → adminMatch k q = true → q.id ≤ p.id) := by
  constructor
  · intro db text p q hres hq hm hs hu
    have hqf : q ∈ db.payments.filter
        (fun p => selfMatch text p && p.status == "paid" && p.used == false) := by
      apply List.mem_filter.mpr
      exact ⟨hq, by simp [hm, hs, hu]⟩
    have hmax := selectFirst_maximal claimBefore claimBefore_asym claimBefore_negtrans
      _ p hres q hqf
    simp only [claimBefore, Bool.or_eq_false_iff, Bool.and_eq_false_iff,
      decide_eq_false_iff_not, not_lt, beq_eq_false_iff_ne, ne_eq] at hmax
    omega
  · intro db k p q hres hq hm
    have hqf : q ∈ db.payments.filter (adminMatch k) := List.mem_filter.mpr ⟨hq, hm⟩
    have hmax := selectFirst_maximal adminBefore adminBefore_asym adminBefore_negtrans
      _ p hres q hqf
    simp only [adminBefore, decide_eq_false_iff_not, not_lt] at hmax
    exact hmax

/-- Witness for the amended C6 on the two-payment database: every match's
id is bounded by the administratively resolved payment's id. -/
theorem claim_C6_witness : pA6.id ≤ pB6.id :=
  claim_C6_resolver_recency.2 dbC6 "e@x" pB6 pA6 (by decide) (by decide) (by decide)

/-- Claim C9: when no ActiveGroupRecord row exists at all, a join request
from an identity bound to a paid payment is not ignored — the granted audit
row is appended, the payment is marked used and the request is approved for
whatever group the event names (the wrong-group rejection and the lazy
chat-id adoption only happen when a group row exists). -/
theorem claim_C9_no_group_grant
    (db : DB) (fid : Nat) (cid title : String) (now : Nat) (ok : Bool)
    (user : User) (payment : Payment)
    (hg : db.groups = [])
    (hu : db.users.find? (fun u => u.telegram_id == toString fid) = some user)
    (hp : user.payment_id = some payment.id)
    (hfind : db.payments.find? (fun p => p.id == payment.id) = some payment)
    (hpaid : payment.status = "paid") :
    approve_join_request db fid cid title now ok =
      ({ db with
         logs := db.logs ++
           [⟨toString fid, payment.email, payment.order_id, title, cid,
             "granted", now, "Auto-approved join request"⟩]
         payments := setUsed db.payments payment.id },
       if ok then JoinOutcome.approved else JoinOutcome.approveFailed) := by
  unfold approve_join_request
  simp only [hu, hp, hfind]
  have hs : ¬ payment.status ≠ "paid" := by simp [hpaid]
  rw [if_neg hs]
  have hgate : joinGate db cid = (true, db.groups) := by
    unfold joinGate currentGroup
    rw [hg]
    rfl
  rw [hgate, if_neg (by simp : ¬ ((true, db.groups).1 = false))]

/-- Witness for C9 on the concrete no-group database `dbJ`. -/
theorem claim_C9_witness :
    approve_join_request dbJ 7 "-100" "T" 9 true =
      ({ dbJ with
         logs := dbJ.logs ++
           [⟨toString 7, some "a@b.com", "A1", "T", "-100", "granted", 9,
             "Auto-approved join request"⟩]
         payments := setUsed dbJ.payments 1 },
       if true then JoinOutcome.approved else JoinOutcome.approveFailed) :=
  claim_C9_no_group_grant dbJ 7 "-100" "T" 9 true ⟨1, "7", none, none, some 1⟩
    ⟨1, "A1", some "a@b.com", none, "paid", none, 100, false⟩
    rfl (by decide) rfl (by decide) rfl

/-- Claim C7: webhook upsert semantics — `ok` response under the validity
conditions; a fresh `order_id` appends a new unused row (so uniqueness of
`order_id` is preserved, last conjunct); an existing `order_id` is updated
in place (same row count, other rows untouched) overlaying only non-empty
incoming contact fields while always overwriting status and created_at. -/
theorem claim_C7_upsert
    (db : DB) (oid : String) (email phone_raw status_raw product_name : Option String)
    (ts : Nat)
    (hoid : oid ≠ "")
    (hcontact : isBlankOpt email = false ∨ isBlankOpt (normalize_phone_opt phone_raw) = false) :
    (handle_prodamus db (some oid) email phone_raw status_raw product_name ts).2
        = WebhookReply.ok ∧
    ((∀ p ∈ db.payments, p.order_id ≠ oid) →
      (handle_prodamus db (some oid) email phone_raw status_raw product_name ts).1.payments
        = db.payments ++
            [⟨nextPaymentId db, oid, email, normalize_phone_opt phone_raw,
              normalize_status status_raw, product_name, ts, false⟩]) ∧
    (∀ p0, db.payments.find? (fun p => p.order_id == oid) = some p0 →
      (handle_prodamus db (some oid) email phone_raw status_raw product_name ts).1.payments.length
          = db.payments.length ∧
      (∀ p ∈ db.payments, p.id ≠ p0.id →
        p ∈ (handle_prodamus db (some oid) email phone_raw status_raw product_name ts).1.payments) ∧
      (∃ q ∈ (handle_prodamus db (some oid) email phone_raw status_raw product_name ts).1.payments,
        q.id = p0.id ∧ q.order_id = p0.order_id ∧ q.used = p0.used ∧
        q.status = normalize_status status_raw ∧ q.created_at = ts ∧
        q.email = (if isBlankOpt email then p0.email else email) ∧
        q.phone = (if isBlankOpt (normalize_phone_opt phone_raw) then p0.phone
                   else normalize_phone_opt phone_raw) ∧
        q.product_name = (if isBlankOpt product_name then p0.product_name else product_name))) ∧
    ((db.payments.map Payment.order_id).Nodup →
      ((handle_prodamus db (some oid) email phone_raw status_raw product_name ts).1.payments.map
          Payment.order_id).Nodup) := by
  have h1 : isBlankOpt (some oid) = false := by simp [isBlankOpt, hoid]
  have hguard : (isBlankOpt (some oid)
      || (isBlankOpt email && isBlankOpt (normalize_phone_opt phone_raw))) = false := by
    rcases hcontact with h | h <;> simp [h1, h]
  unfold handle_prodamus
  simp only [hguard, Bool.false_eq_true, if_false, Option.getD_some]
  refine ⟨?_, ?_, ?_, ?_⟩
  · cases db.payments.find? (fun p => p.order_id == oid) <;> rfl
  · intro hnone
    have hfn : db.payments.find? (fun p => p.order_id == oid) = none := by
      apply List.find?_eq_none.mpr
      intro p hp
      simp [hnone p hp]
    simp only [hfn]
  · intro p0 hp0
    simp only [hp0]
    refine ⟨by simp, ?_, ?_⟩
    · intro p hp hne
      have hmem := List.mem_map_of_mem
        (fun p => if p.id = p0.id then
          overlayed p email (normalize_phone_opt phone_raw) product_name
            (normalize_status status_raw) ts
          else p) hp
      simpa [hne] using hmem
    · have hp0mem := List.mem_of_find?_eq_some hp0
      have hmem := List.mem_map_of_mem
        (fun p => if p.id = p0.id then
          overlayed p email (normalize_phone_opt phone_raw) product_name
            (normalize_status status_raw) ts
          else p) hp0mem
      refine ⟨overlayed p0 email (normalize_phone_opt phone_raw) product_name
          (normalize_status status_raw) ts, ?_, rfl, rfl, rfl, rfl, rfl, rfl, rfl, rfl⟩
      simpa using hmem
  · intro hnd
    cases hf : db.payments.find? (fun p => p.order_id == oid) with
    | none =>
      have hnotin : oid ∉ db.payments.map Payment.order_id := by
        intro hin
        rcases List.mem_map.mp hin with ⟨p, hp, he⟩
        have hnp := List.find?_eq_none.mp hf p hp
        simp [he] at hnp
      simp [List.nodup_append, hnd, hnotin]
    | some p0 =>
      simp only [List.map_map]
      have hsame : ∀ p ∈ db.payments,
          (Payment.order_id ∘ fun p => if p.id = p0.id then
            overlayed p email (normalize_phone_opt phone_raw) product_name
              (normalize_status status_raw) ts
            else p) p = Payment.order_id p := by
        intro p hp
        by_cases hid : p.id = p0.id
        · simp [Function.comp, hid, overlayed]
        · simp [Function.comp, hid]
      rw [List.map_congr_left hsame]
      exact hnd

/-- Witness for C7: ingesting the scenario webhook into the empty database
creates the row. -/
theorem claim_C7_witness :
    (handle_prodamus db0 (some "A1") (some "a@b.com") none (some "success") none 100).1.payments
      = db0.payments ++
          [⟨nextPaymentId db0, "A1", some "a@b.com", normalize_phone_opt none,
            normalize_status (some "success"), none, 100, false⟩] :=
  (claim_C7_upsert db0 "A1" (some "a@b.com") none (some "success") none 100
    (by decide) (Or.inl (by decide))).2.1 (by decide)

/-- Claim C10: re-ingesting a webhook for an existing `order_id` never
touches the `used` flag, the synthetic id or the `order_id` of any ledger
row — the projection of the ledger to those three fields is unchanged. -/
theorem claim_C10_reingest_frame
    (db : DB) (oid : String) (email phone_raw status_raw product_name : Option String)
    (ts : Nat) (p0 : Payment)
    (hfound : db.payments.find? (fun p => p.order_id == oid) = some p0) :
    (handle_prodamus db (some oid) email phone_raw status_raw product_name ts).1.payments.map
        (fun p => (p.id, p.order_id, p.used))
      = db.payments.map (fun p => (p.id, p.order_id, p.used)) := by
  unfold handle_prodamus
  by_cases hb : (isBlankOpt (some oid)
      || (isBlankOpt email && isBlankOpt (normalize_phone_opt phone_raw))) = true
  · rw [if_pos hb]
  · rw [if_neg hb]
    simp only [Option.getD_some, hfound, List.map_map]
    apply List.map_congr_left
    intro p hp
    by_cases hid : p.id = p0.id
    · simp [Function.comp, hid, overlayed]
    · simp [Function.comp, hid]

/-- Witness for C10: a repeated success webhook for the consumed payment of
`dbU` leaves id, order_id and used unchanged. -/
theorem claim_C10_witness :
    (handle_prodamus dbU (some "A1") (some "x@y") none (some "success") none 200).1.payments.map
        (fun p => (p.id, p.order_id, p.used))
      = dbU.payments.map (fun p => (p.id, p.order_id, p.used)) :=
  claim_C10_reingest_frame dbU "A1" (some "x@y") none (some "success") none 200
    ⟨1, "A1", some "a@b.com", none, "paid", none, 100, true⟩ (by decide)

/-- Properties carried by a successful self-service resolution. -/
theorem selfResolve_mem (db : DB) (text : String) (P : Payment)
    (h : selfResolve db text = some P) :
    P ∈ db.payments ∧ selfMatch text P = true ∧ P.status = "paid" ∧ P.used = false := by
  have hm := selectFirst_mem _ _ _ h
  obtain ⟨h1, h2⟩ := List.mem_filter.mp hm
  simp only [Bool.and_eq_true, beq_iff_eq] at h2
  exact ⟨h1, h2.1.1, h2.1.2, by simpa using h2.2⟩

/-- Membership carried by a successful administrative resolution. -/
theorem adminResolve_mem (db : DB) (k : String) (P : Payment)
    (h : adminResolve db k = some P) : P ∈ db.payments ∧ adminMatch k P = true :=
  ⟨(List.mem_filter.mp (selectFirst_mem _ _ _ h)).1,
   (List.mem_filter.mp (selectFirst_mem _ _ _ h)).2⟩

/-- When the binding step replied with an invite, the committed state sets
the resolved payment used and leaves ledger ids, groups and logs alone. -/
theorem claimBind_invite_state (db db1 : DB) (fu : FromUser) (tgid : String)
    (P : Payment) (link gname : String)
    (h : claimBind db fu tgid P = (db1, ClaimReply.invite link gname)) :
    db1.payments = setUsed db.payments P.id ∧ db1.groups = db.groups ∧
      db1.logs = db.logs := by
  unfold claimBind at h
  cases hg : currentGroup db with
  | none => simp only [hg] at h; simp at h
  | some g =>
    simp only [hg] at h
    have hfst := congrArg Prod.fst h
    simp only at hfst
    rw [← hfst]
    exact ⟨rfl, rfl, rfl⟩

/-- Claim C3 counterexample: on the end-to-end scenario the first
submission delivers the invite; the second submission of the same
identifier by the same identity leaves the state unchanged but answers with
the informational already-used message, not the invite — the claim's
"invite link is delivered again" is false. -/
theorem claim_C3_counterexample :
    (handle_email_or_order dbG fu42 "a@b.com").2 = ClaimReply.invite "L" "G" ∧
    handle_email_or_order (handle_email_or_order dbG fu42 "a@b.com").1 fu42 "a@b.com"
      = ((handle_email_or_order dbG fu42 "a@b.com").1, ClaimReply.alreadyUsed) ∧
    (handle_email_or_order (handle_email_or_order dbG fu42 "a@b.com").1 fu42 "a@b.com").2
      ≠ ClaimReply.invite "L" "G" := by
  decide

/-- Claim C3 (amended): after an identity successfully claims a payment via
an identifier whose paid matches are unique, resubmitting the same
identifier leaves the state unchanged and produces no error and no rebind:
it answers with the informational already-used reply instead of delivering
the invite again. -/
theorem claim_C3_resubmission
    (db db1 : DB) (fu : FromUser) (text link gname : String)
    (h1 : handle_email_or_order db fu text = (db1, ClaimReply.invite link gname))
    (huniq : ∀ q ∈ db.payments, ∀ r ∈ db.payments,
      selfMatch text q = true → q.status = "paid" →
      selfMatch text r = true → r.status = "paid" → q = r) :
    handle_email_or_order db1 fu text = (db1, ClaimReply.alreadyUsed) := by
  unfold handle_email_or_order at h1
  cases hres : selfResolve db text with
  | none =>
    simp only [hres] at h1
    by_cases hus : (usedResolve db text).isSome = true
    · rw [if_pos hus] at h1; simp at h1
    · rw [if_neg hus] at h1; simp at h1
  | some P =>
    simp only [hres] at h1
    obtain ⟨hPdb, hPm, hPs, hPu⟩ := selfResolve_mem db text P hres
    have hmain : claimBind db fu (toString fu.id) P = (db1, ClaimReply.invite link gname) →
        handle_email_or_order db1 fu text = (db1, ClaimReply.alreadyUsed) := by
      intro hcb
      obtain ⟨hpay, hgr, hlg⟩ := claimBind_invite_state db db1 fu (toString fu.id) P
        link gname hcb
      have hPused : ({ P with used := true } : Payment) ∈ db1.payments := by
        rw [hpay]
        unfold setUsed
        apply List.mem_map.mpr
        exact ⟨P, hPdb, by simp⟩
      have hself1 : selfResolve db1 text = none := by
        unfold selfResolve
        have hempty : db1.payments.filter
            (fun p => selfMatch text p && p.status == "paid" && p.used == false) = [] := by
          rw [List.filter_eq_nil_iff]
          intro q hq
          rw [hpay] at hq
          rcases List.mem_map.mp hq with ⟨p, hp, hqe⟩
          by_cases hid : p.id = P.id
          · rw [if_pos hid] at hqe
            rw [← hqe]
            simp
          · rw [if_neg hid] at hqe
            rw [← hqe]
            intro hcontra
            simp only [Bool.and_eq_true, beq_iff_eq] at hcontra
            exact hid (congrArg Payment.id (huniq p hp P hPdb hcontra.1.1 hcontra.1.2 hPm hPs))
        rw [hempty]
        rfl
      have hused1 : (usedResolve db1 text).isSome = true := by
        unfold usedResolve
        have hfl : ({ P with used := true } : Payment) ∈ db1.payments.filter
            (fun p => selfMatch text p && p.status == "paid") := by
          apply List.mem_filter.mpr
          refine ⟨hPused, ?_⟩
          simp only [Bool.and_eq_true]
          constructor
          · show selfMatch text { P with used := true } = true
            have hsm : selfMatch text { P with used := true } = selfMatch text P := rfl
            rw [hsm]
            exact hPm
          · show (({ P with used := true } : Payment).status == "paid") = true
            simp [hPs]
        cases hflt : db1.payments.filter (fun p => selfMatch text p && p.status == "paid") with
        | nil => rw [hflt] at hfl; simp at hfl
        | cons a as => exact selectFirst_cons_isSome claimBefore a as
      unfold handle_email_or_order
      simp only [hself1]
      rw [if_pos hused1]
    cases hfind : db.users.find? (fun u => u.payment_id == some P.id) with
    | some eu =>
      simp only [hfind] at h1
      by_cases htg : eu.telegram_id ≠ toString fu.id
      · rw [if_pos htg] at h1; simp at h1
      · rw [if_neg htg] at h1
        exact hmain h1
    | none =>
      simp only [hfind] at h1
      exact hmain h1

/-- Witness for the amended C3 on the end-to-end scenario database. -/
theorem claim_C3_witness :
    handle_email_or_order (handle_email_or_order dbG fu42 "a@b.com").1 fu42 "a@b.com"
      = ((handle_email_or_order dbG fu42 "a@b.com").1, ClaimReply.alreadyUsed) :=
  claim_C3_resubmission dbG (handle_email_or_order dbG fu42 "a@b.com").1 fu42
    "a@b.com" "L" "G" (by decide) (by decide)

/-! Preservation of the at-most-one-binding invariant. -/

theorem aom_payments_ids (db db' : DB)
    (hu : db'.users = db.users)
    (hp : ∀ p ∈ db'.payments, ∃ q ∈ db.payments, q.id = p.id)
    (h : AtMostOneBinding db) : AtMostOneBinding db' := by
  intro p hpmem
  rcases hp p hpmem with ⟨q, hq, hid⟩
  unfold bindersCount
  rw [hu, ← hid]
  exact h q hq

theorem setUsed_ids (l : List Payment) (pid : Nat) :
    ∀ p ∈ setUsed l pid, ∃ q ∈ l, q.id = p.id := by
  intro p hp
  rcases List.mem_map.mp hp with ⟨q, hq, he⟩
  refine ⟨q, hq, ?_⟩
  by_cases hid : q.id = pid
  · rw [if_pos hid] at he
    rw [← he]
  · rw [if_neg hid] at he
    rw [← he]

theorem claimUsers_binders_le (db : DB) (fu : FromUser) (tgid : String) (P : Payment)
    (hwf : WFdb db) (hinv : AtMostOneBinding db)
    (hnb : ∀ w ∈ db.users, (w.payment_id == some P.id) = true → w.telegram_id = tgid) :
    ∀ q ∈ db.payments,
      (claimUsers db fu tgid P).countP (fun u => u.payment_id == some q.id) ≤ 1 := by
  intro q hq
  have hinvq : db.users.countP (fun u => u.payment_id == some q.id) ≤ 1 := hinv q hq
  unfold claimUsers
  cases hfu : db.users.find? (fun u => u.telegram_id == tgid) with
  | none =>
    rw [List.countP_append]
    by_cases hqid : q.id = P.id
    · have h0 : db.users.countP (fun u => u.payment_id == some q.id) = 0 := by
        apply List.countP_eq_zero.mpr
        intro w hw hbw
        have hbP : (w.payment_id == some P.id) = true := by rw [← hqid]; exact hbw
        have htg := hnb w hw hbP
        have hnof := List.find?_eq_none.mp hfu w hw
        simp [htg] at hnof
      rw [h0]
      simp only [List.countP_cons, List.countP_nil, Nat.zero_add]
      split <;> omega
    · have hne : ((some P.id == some q.id) : Bool) = false := by
        rw [beq_eq_false_iff_ne]
        intro hcontra
        exact hqid (Option.some.inj hcontra).symm
      have h1 : List.countP (fun u => u.payment_id == some q.id)
          ([⟨nextUserId db, tgid, fu.username, fu.full_name, some P.id⟩] : List User) = 0 := by
        simp [List.countP_cons, hne]
      rw [h1]
      omega
  | some u =>
    rw [List.countP_map]
    by_cases hqid : q.id = P.id
    · refine le_trans (countP_le_of_imp _ (fun w => w.id == u.id) db.users ?_)
        (countP_key_le_one User.id u.id db.users hwf.1)
      intro w hw hsat
      simp only [Function.comp] at hsat
      by_cases hwid : w.id = u.id
      · simp [hwid]
      · rw [if_neg hwid] at hsat
        have hbP : (w.payment_id == some P.id) = true := by rw [← hqid]; exact hsat
        have htgw := hnb w hw hbP
        have humem := List.mem_of_find?_eq_some hfu
        have hutg := List.find?_some hfu
        have hcnt : db.users.countP (fun v => v.telegram_id == tgid) ≤ 1 :=
          countP_key_le_one User.telegram_id tgid db.users hwf.2
        have hweq : w = u :=
          countP_unique _ db.users hcnt w hw u humem (by simp [htgw]) hutg
        exact absurd (congrArg User.id hweq) hwid
    · refine le_trans
        (countP_le_of_imp _ (fun w => w.payment_id == some q.id) db.users ?_) hinvq
      intro w hw hsat
      simp only [Function.comp] at hsat
      by_cases hwid : w.id = u.id
      · rw [if_pos hwid] at hsat
        have : P.id = q.id := by simpa using hsat
        exact absurd this.symm hqid
      · rw [if_neg hwid] at hsat
        exact hsat

theorem claimBind_aom (db : DB) (fu : FromUser) (tgid : String) (P : Payment)
    (hwf : WFdb db) (hinv : AtMostOneBinding db)
    (hnb : ∀ w ∈ db.users, (w.payment_id == some P.id) = true → w.telegram_id = tgid) :
    AtMostOneBinding (claimBind db fu tgid P).1 := by
  have hres : (claimBind db fu tgid P).1 =
      { db with users := claimUsers db fu tgid P,
                payments := setUsed db.payments P.id } := by
    unfold claimBind
    cases currentGroup db <;> rfl
  rw [hres]
  intro p hp
  rcases setUsed_ids db.payments P.id p hp with ⟨q, hq, hid⟩
  unfold bindersCount
  rw [← hid]
  exact claimUsers_binders_le db fu tgid P hwf hinv hnb q hq

theorem handle_email_aom (db : DB) (fu : FromUser) (text : String)
    (hwf : WFdb db) (hinv : AtMostOneBinding db) :
    AtMostOneBinding (handle_email_or_order db fu text).1 := by
  unfold handle_email_or_order
  split
  · split <;> exact hinv
  · rename_i P hres
    have hPdb := (selfResolve_mem db text P hres).1
    split
    · rename_i eu hfind
      split
      · exact hinv
      · rename_i htg
        apply claimBind_aom db fu (toString fu.id) P hwf hinv
        intro w hw hbw
        have heumem := List.mem_of_find?_eq_some hfind
        have heub := List.find?_some hfind
        have hcnt : db.users.countP (fun u => u.payment_id == some P.id) ≤ 1 :=
          hinv P hPdb
        have hweq : w = eu :=
          countP_unique _ db.users hcnt w hw eu heumem hbw heub
        rw [hweq]
        exact not_ne_iff.mp htg
    · rename_i hfind
      apply claimBind_aom db fu (toString fu.id) P hwf hinv
      intro w hw hbw
      exact absurd hbw (List.find?_eq_none.mp hfind w hw)

theorem rebindTarget_nodup (db : DB) (tid : String) (hwf : WFdb db) :
    ((rebindTarget db tid).1.map User.id).Nodup := by
  unfold rebindTarget
  cases hfu : db.users.find? (fun u => u.telegram_id == tid) with
  | some u => exact hwf.1
  | none =>
    show ((db.users ++ [⟨nextUserId db, tid, none, none, none⟩] : List User).map
      User.id).Nodup
    rw [List.map_append, List.nodup_append]
    refine ⟨hwf.1, List.nodup_singleton _, ?_⟩
    intro x hx hx2
    simp only [List.map_cons, List.map_nil, List.mem_singleton] at hx2
    rcases List.mem_map.mp hx with ⟨w, hw, he⟩
    have hlt := userId_lt_nextUserId db w hw
    rw [he] at hlt
    rw [hx2] at hlt
    omega

theorem rebindTarget_countP (db : DB) (tid : String) (pid : Nat) :
    (rebindTarget db tid).1.countP (fun u => u.payment_id == some pid)
      = db.users.countP (fun u => u.payment_id == some pid) := by
  unfold rebindTarget
  cases hfu : db.users.find? (fun u => u.telegram_id == tid) with
  | some u => rfl
  | none =>
    show (db.users ++ [⟨nextUserId db, tid, none, none, none⟩] : List User).countP
        (fun u => u.payment_id == some pid) = _
    rw [List.countP_append]
    simp [List.countP_cons]

theorem bindNew_evict_binders (L : List User) (pid nid qid : Nat)
    (hnd : (L.map User.id).Nodup)
    (hbq : L.countP (fun u => u.payment_id == some qid) ≤ 1)
    (hbp : L.countP (fun u => u.payment_id == some pid) ≤ 1) :
    (bindNew (evictOld L pid nid) nid pid).countP
      (fun u => u.payment_id == some qid) ≤ 1 := by
  unfold evictOld
  cases hold : L.find? (fun u => u.payment_id == some pid) with
  | none =>
    show (bindNew L nid pid).countP (fun u => u.payment_id == some qid) ≤ 1
    unfold bindNew
    rw [List.countP_map]
    by_cases hqp : qid = pid
    · refine le_trans (countP_le_of_imp _ (fun w => w.id == nid) L ?_)
        (countP_key_le_one User.id nid L hnd)
      intro w hw hsat
      by_cases hwid : w.id = nid
      · simp [hwid]
      · exfalso
        simp only [Function.comp] at hsat
        simp [hwid] at hsat
        rw [hqp] at hsat
        exact (List.find?_eq_none.mp hold w hw) (by simp [hsat])
    · refine le_trans
        (countP_le_of_imp _ (fun w => w.payment_id == some qid) L ?_) hbq
      intro w hw hsat
      simp only [Function.comp] at hsat
      by_cases hwid : w.id = nid
      · simp [hwid] at hsat
        exfalso
        apply hqp
        omega
      · simp [hwid] at hsat
        simp [hsat]
  | some ou =>
    have houmem := List.mem_of_find?_eq_some hold
    have houb := List.find?_some hold
    show (bindNew (if ou.id ≠ nid then
        L.map (fun w => if w.id = ou.id then { w with payment_id := none } else w)
      else L) nid pid).countP (fun u => u.payment_id == some qid) ≤ 1
    by_cases hone : ou.id ≠ nid
    · rw [if_pos hone]
      unfold bindNew
      rw [List.map_map, List.countP_map]
      by_cases hqp : qid = pid
      · refine le_trans (countP_le_of_imp _ (fun w => w.id == nid) L ?_)
          (countP_key_le_one User.id nid L hnd)
        intro w hw hsat
        by_cases hwid : w.id = nid
        · simp [hwid]
        · exfalso
          simp only [Function.comp] at hsat
          by_cases hwo : w.id = ou.id
          · rw [if_pos hwo] at hsat
            simp [hwid] at hsat
          · rw [if_neg hwo] at hsat
            simp [hwid] at hsat
            rw [hqp] at hsat
            have hweq : w = ou :=
              countP_unique _ L hbp w hw ou houmem (by simp [hsat]) houb
            exact hwo (congrArg User.id hweq)
      · refine le_trans
          (countP_le_of_imp _ (fun w => w.payment_id == some qid) L ?_) hbq
        intro w hw hsat
        simp only [Function.comp] at hsat
        by_cases hwo : w.id = ou.id
        · rw [if_pos hwo] at hsat
          by_cases hwid : w.id = nid
          · simp [hwid] at hsat
            exfalso
            apply hqp
            omega
          · simp [hwid] at hsat
        · rw [if_neg hwo] at hsat
          by_cases hwid : w.id = nid
          · simp [hwid] at hsat
            exfalso
            apply hqp
            omega
          · simp [hwid] at hsat
            simp [hsat]
    · rw [if_neg hone]
      unfold bindNew
      rw [List.countP_map]
      have hnid : ou.id = nid := not_not.mp hone
      by_cases hqp : qid = pid
      · refine le_trans (countP_le_of_imp _ (fun w => w.id == nid) L ?_)
          (countP_key_le_one User.id nid L hnd)
        intro w hw hsat
        by_cases hwid : w.id = nid
        · simp [hwid]
        · exfalso
          simp only [Function.comp] at hsat
          simp [hwid] at hsat
          rw [hqp] at hsat
          have hweq : w = ou :=
            countP_unique _ L hbp w hw ou houmem (by simp [hsat]) houb
          apply hwid
          rw [congrArg User.id hweq]
          exact hnid
      · refine le_trans
          (countP_le_of_imp _ (fun w => w.payment_id == some qid) L ?_) hbq
        intro w hw hsat
        simp only [Function.comp] at hsat
        by_cases hwid : w.id = nid
        · simp [hwid] at hsat
          exfalso
          apply hqp
          omega
        · simp [hwid] at hsat
          simp [hsat]

theorem rebind_aom (db : DB) (k tid : String)
    (hwf : WFdb db) (hinv : AtMostOneBinding db) :
    AtMostOneBinding (rebind_payment_to_user db k tid).1 := by
  unfold rebind_payment_to_user
  split
  · exact hinv
  · rename_i P hres
    intro p hp
    rcases setUsed_ids db.payments P.id p hp with ⟨q, hq, hid⟩
    unfold bindersCount
    show (bindNew (evictOld (rebindTarget db tid).1 P.id (rebindTarget db tid).2)
        (rebindTarget db tid).2 P.id).countP (fun u => u.payment_id == some p.id) ≤ 1
    rw [← hid]
    apply bindNew_evict_binders
    · exact rebindTarget_nodup db tid hwf
    · rw [rebindTarget_countP]
      exact hinv q hq
    · rw [rebindTarget_countP]
      exact hinv P (adminResolve_mem db k P hres).1

theorem join_aom (db : DB) (fid : Nat) (cid title : String) (now : Nat) (ok : Bool)
    (hinv : AtMostOneBinding db) :
    AtMostOneBinding (approve_join_request db fid cid title now ok).1 := by
  unfold approve_join_request
  repeat' split
  all_goals
    first
      | exact hinv
      | exact aom_payments_ids db _ rfl (setUsed_ids db.payments _) hinv

theorem remove_aom (db : DB) (aid : Nat) (text : String) (now : Nat) (ok : Bool)
    (hinv : AtMostOneBinding db) :
    AtMostOneBinding (admin_remove_user db aid text now ok).1 := by
  unfold admin_remove_user
  repeat' split
  all_goals exact hinv

theorem unban_aom (db : DB) (text : String) (now : Nat) (ok : Bool)
    (hinv : AtMostOneBinding db) :
    AtMostOneBinding (admin_unban_user db text now ok).1 := by
  unfold admin_unban_user
  repeat' split
  all_goals exact hinv

theorem rebind_evicts (db : DB) (k tid : String) (A B : User) (P : Payment)
    (hwf : WFdb db) (hinv : AtMostOneBinding db)
    (hres : adminResolve db k = some P)
    (hA : A ∈ db.users) (hB : B ∈ db.users)
    (hAb : A.payment_id = some P.id) (hBt : B.telegram_id = tid) (hAB : A.id ≠ B.id) :
    ∀ u ∈ (rebind_payment_to_user db k tid).1.users,
      (u.id = A.id → u.payment_id = none) ∧ (u.id = B.id → u.payment_id = some P.id) := by
  have hPdb := (adminResolve_mem db k P hres).1
  cases hfu : db.users.find? (fun u => u.telegram_id == tid) with
  | none =>
    have hcontra := List.find?_eq_none.mp hfu B hB
    simp [hBt] at hcontra
  | some u0 =>
    have hu0mem := List.mem_of_find?_eq_some hfu
    have hu0tg := List.find?_some hfu
    have hcntT : db.users.countP (fun v => v.telegram_id == tid) ≤ 1 :=
      countP_key_le_one User.telegram_id tid db.users hwf.2
    have hu0B : u0 = B :=
      countP_unique _ db.users hcntT u0 hu0mem B hB hu0tg (by simp [hBt])
    have hT : rebindTarget db tid = (db.users, B.id) := by
      unfold rebindTarget
      rw [hfu]
      show (db.users, u0.id) = (db.users, B.id)
      rw [hu0B]
    cases hold : db.users.find? (fun u => u.payment_id == some P.id) with
    | none =>
      have hcontra := List.find?_eq_none.mp hold A hA
      simp [hAb] at hcontra
    | some ou =>
      have houmem := List.mem_of_find?_eq_some hold
      have houb := List.find?_some hold
      have hcntP : db.users.countP (fun v => v.payment_id == some P.id) ≤ 1 :=
        hinv P hPdb
      have houA : ou = A :=
        countP_unique _ db.users hcntP ou houmem A hA houb (by simp [hAb])
      have hE : evictOld db.users P.id B.id
          = db.users.map (fun w => if w.id = A.id then { w with payment_id := none } else w) := by
        unfold evictOld
        rw [hold]
        show (if ou.id ≠ B.id then
            db.users.map (fun w => if w.id = ou.id then { w with payment_id := none } else w)
          else db.users)
          = db.users.map (fun w => if w.id = A.id then { w with payment_id := none } else w)
        rw [houA]
        rw [if_pos hAB]
      have hru : (rebind_payment_to_user db k tid).1.users
          = bindNew (evictOld (rebindTarget db tid).1 P.id (rebindTarget db tid).2)
              (rebindTarget db tid).2 P.id := by
        unfold rebind_payment_to_user
        rw [hres]
      rw [hru, hT]
      show ∀ u ∈ bindNew (evictOld db.users P.id B.id) B.id P.id,
        (u.id = A.id → u.payment_id = none) ∧ (u.id = B.id → u.payment_id = some P.id)
      rw [hE]
      unfold bindNew
      rw [List.map_map]
      intro u hu
      rcases List.mem_map.mp hu with ⟨w, hw, hwe⟩
      simp only [Function.comp] at hwe
      by_cases hwA : w.id = A.id
      · have hval : u = { w with payment_id := none } := by
          rw [← hwe]
          simp [hwA, hAB]
        constructor
        · intro _
          rw [hval]
        · intro huB
          exfalso
          apply hAB
          rw [← hwA]
          rw [hval] at huB
          exact huB
      · by_cases hwB : w.id = B.id
        · have hval : u = { w with payment_id := some P.id } := by
            rw [← hwe]
            simp [hwB, Ne.symm hAB]
          constructor
          · intro huA
            exfalso
            apply hwA
            rw [hval] at huA
            exact huA
          · intro _
            rw [hval]
        · have hval : u = w := by
            rw [← hwe]
            simp [hwA, hwB]
          constructor
          · intro huA
            exfalso
            apply hwA
            rw [hval] at huA
            exact huA
          · intro huB
            exfalso
            apply hwB
            rw [hval] at huB
            exact huB

/-- Claim C1: the at-most-one-binding invariant — on a well-formed database
satisfying it, every operation of the binding engine (self-service claim,
administrative rebind, join confirmation, revoke, restore) preserves it;
moreover the administrative rebind of payment `P` from identity `A` to a
distinct identity `B` clears `A`'s binding and points `B`'s at `P`. -/
theorem claim_C1_at_most_one_binding
    (db : DB) (hwf : WFdb db) (hinv : AtMostOneBinding db) :
    (∀ (fu : FromUser) (text : String),
        AtMostOneBinding (handle_email_or_order db fu text).1) ∧
    (∀ (k tid : String), AtMostOneBinding (rebind_payment_to_user db k tid).1) ∧
    (∀ (fid : Nat) (cid title : String) (now : Nat) (ok : Bool),
        AtMostOneBinding (approve_join_request db fid cid title now ok).1) ∧
    (∀ (aid : Nat) (text : String) (now : Nat) (ok : Bool),
        AtMostOneBinding (admin_remove_user db aid text now ok).1) ∧
    (∀ (text : String) (now : Nat) (ok : Bool),
        AtMostOneBinding (admin_unban_user db text now ok).1) ∧
    (∀ (k tid : String) (A B : User) (P : Payment),
        adminResolve db k = some P → A ∈ db.users → B ∈ db.users →
        A.payment_id = some P.id → B.telegram_id = tid → A.id ≠ B.id →
        ∀ u ∈ (rebind_payment_to_user db k tid).1.users,
          (u.id = A.id → u.payment_id = none) ∧ (u.id = B.id → u.payment_id = some P.id)) :=
  ⟨fun fu text => handle_email_aom db fu text hwf hinv,
   fun k tid => rebind_aom db k tid hwf hinv,
   fun fid cid title now ok => join_aom db fid cid title now ok hinv,
   fun aid text now ok => remove_aom db aid text now ok hinv,
   fun text now ok => unban_aom db text now ok hinv,
   fun k tid A B P hres hA hB hAb hBt hAB =>
     rebind_evicts db k tid A B P hwf hinv hres hA hB hAb hBt hAB⟩

/-- Witness for C1: on the two-identity database the administrative rebind
of the consumed payment to identity 9 keeps the invariant. -/
theorem claim_C1_witness :
    AtMostOneBinding (rebind_payment_to_user dbE "a@b.com" "9").1 :=
  (claim_C1_at_most_one_binding dbE (by decide) (by decide)).2.1 "a@b.com" "9"

end Marathon
